import Mathlib

/-!
Verification development for `pyreqsearch.py`, a static import scanner and
transitive dependency resolver for Python source files.

The development shallowly embeds the program:

* `PyNode` models the fragment of the Python abstract syntax tree that the
  `ast.NodeVisitor` subclass `ImportsFinder` distinguishes: `Import` and
  `ImportFrom` statements, `If` statements, ordinary and async function
  definitions, and all other constructs (which `generic_visit` traverses
  transparently, visiting their children in order).
* `FinderState`, `addImport`, `visit`, `visitList` and `runFinder` model the
  `ImportsFinder` visitor (source lines 11-74): its four bucket lists, its two
  stacks `in_conditional` / `in_function` (Python lists of `None` used as
  counters, modelled as lists of `Unit`), and the classification of each
  encountered import statement.
* `find_imports` models the function of the same name (lines 77-91): the
  `.pyd` short-circuit, file reading (`IOError` when the path is absent from
  the modelled file system), parsing (`ast.parse(source)` raises a
  `SyntaxError` carrying the default placeholder filename `<unknown>`,
  modelled as `PyErr.parseError`), and extraction of `direct_imports`.
* `computeTarget`, `processImport`, `processImports`, `loop` and
  `requirements_info` model the breadth-first resolver (lines 94-137).  The
  module-resolution oracle `importlib.util.find_spec` is a black-box
  parameter (`Env.findSpec`): it can raise `ModuleNotFoundError`
  (`FindSpecResult.notFound`), return `None` (`FindSpecResult.noSpec`) or
  return a spec with a qualified name and an optional origin path.  The file
  system is the finite association list `Env.files`.  The string operations
  used by the source (`== "."`, `startswith(".")`, `"." in s`,
  `s.split(".")`, `".".join`, `endswith(".pyd")`, `"." * level`) are embedded
  as executable functions on the character list underlying a `String`.

`requirements_info` additionally returns, purely as observers needed to state
properties (the program prints nothing and only returns `modules`): the list
`edges` of successful resolutions `(dependent, qualname)` in emission order,
the list `classified` of paths passed to `find_imports` in order, and the
optional error that would propagate out of the Python function.
-/

/-- One observed import, `(source, name)`: the module path as written and,
for `from X ... `-form statements, the imported attribute name.  Mirrors the
`ImportSpec` tuple type of the source (line 8). -/
abbrev ImportSpec := String × Option String

/-- Errors that the Python code can raise: a `SyntaxError` from
`ast.parse(source)` (its `filename` attribute is the default placeholder,
since `ast.parse` is given only the source text), an `IOError`/`OSError` from
`open`, and the `TypeError` from `"." + None` (unreachable from parsed
trees, where a `"."` source always comes with an attribute name). -/
inductive PyErr where
  | parseError (filename : String)
  | ioError
  | typeError
deriving DecidableEq

/-- The fragment of the Python AST relevant to `ImportsFinder`.  `importNode`
carries the names of one `import a, b, ...` statement; `importFrom` carries
the relative level (number of leading dots), the optional module path and the
imported names of one `from ... import a, b, ...` statement; `other` is any
construct with no dedicated visitor method, whose children `generic_visit`
walks in order (module bodies, loops, `try`, classes, assignments, ...). -/
inductive PyNode where
  | importNode (names : List String)
  | importFrom (level : Nat) (module : Option String) (names : List String)
  | ifNode (body : List PyNode)
  | functionDef (body : List PyNode)
  | asyncFunctionDef (body : List PyNode)
  | other (body : List PyNode)

/-- The mutable state of one `ImportsFinder` instance (lines 13-26). -/
structure FinderState where
  package : Option String
  imports : List ImportSpec
  direct_imports : List ImportSpec
  conditional_imports : List ImportSpec
  functions_imports : List ImportSpec
  in_conditional : List Unit
  in_function : List Unit
deriving DecidableEq

/-- The shared body of `visit_Import` / `visit_ImportFrom` for one record
`info` (lines 33-40 and 48-55): append to `imports` unconditionally, to
`conditional_imports` when the `in_conditional` stack is non-empty, to
`functions_imports` when the `in_function` stack is non-empty, and to
`direct_imports` when both are empty. -/
def addImport (info : ImportSpec) (s : FinderState) : FinderState :=
  let s1 := { s with imports := s.imports ++ [info] }
  let s2 := if s1.in_conditional ≠ [] then
    { s1 with conditional_imports := s1.conditional_imports ++ [info] } else s1
  let s3 := if s2.in_function ≠ [] then
    { s2 with functions_imports := s2.functions_imports ++ [info] } else s2
  if ¬(s3.in_conditional ≠ [] ∨ s3.in_function ≠ []) then
    { s3 with direct_imports := s3.direct_imports ++ [info] } else s3

mutual

/-- The visitor dispatch (lines 31-74).  `visit_Import` emits `(name, None)`
per alias; `visit_ImportFrom` emits `("." * level + (module or ""), name)`
per alias (appending the empty string when `node.module` is falsy is a
no-op, so the concatenation is written unconditionally); `visit_If` pushes
and pops `in_conditional` around the visit of the children;
`visit_FunctionDef` / `visit_AsyncFunctionDef` do the same with
`in_function`; every other node is traversed transparently. -/
def visit : PyNode → FinderState → FinderState
  | .importNode names, s => names.foldl (fun s n => addImport (n, none) s) s
  | .importFrom level moduleOpt names, s =>
    let module := String.mk (List.replicate level '.') ++ moduleOpt.getD ""
    names.foldl (fun s n => addImport (module, some n) s) s
  | .ifNode body, s =>
    let s1 := { s with in_conditional := s.in_conditional ++ [()] }
    let s2 := visitList body s1
    { s2 with in_conditional := s2.in_conditional.dropLast }
  | .functionDef body, s =>
    let s1 := { s with in_function := s.in_function ++ [()] }
    let s2 := visitList body s1
    { s2 with in_function := s2.in_function.dropLast }
  | .asyncFunctionDef body, s =>
    let s1 := { s with in_function := s.in_function ++ [()] }
    let s2 := visitList body s1
    { s2 with in_function := s2.in_function.dropLast }
  | .other body, s => visitList body s

/-- Visiting a list of child nodes in order, as `generic_visit` does. -/
def visitList : List PyNode → FinderState → FinderState
  | [], s => s
  | n :: ns, s => visitList ns (visit n s)

end

/-- `ImportsFinder.__init__` (lines 18-26): all buckets and stacks empty. -/
def initFinder (package : Option String) : FinderState :=
  ⟨package, [], [], [], [], [], []⟩

/-- A full `ImportsFinder(package).search(tree)` run on a parsed module body
(lines 28-29; visiting the `Module` node generically visits its children). -/
def runFinder (package : Option String) (body : List PyNode) : FinderState :=
  visitList body (initFinder package)

/-- Python `source.startswith(".")`: the first character is a dot. -/
def startswithDot (s : String) : Bool :=
  match s.data with
  | c :: _ => c = '.'
  | [] => false

/-- Python `"." in source`. -/
def containsDot (s : String) : Bool := s.data.contains '.'

/-- Python `pyfile.endswith(".pyd")` (line 78). -/
def endswithPyd (s : String) : Bool := List.isSuffixOf ['.', 'p', 'y', 'd'] s.data

/-- Python `source.split(".")` on the underlying character list: splitting
on every dot, keeping empty segments, never returning an empty list. -/
def splitOnDot : List Char → List (List Char)
  | [] => [[]]
  | a :: rest =>
    let r := splitOnDot rest
    if a = '.' then [] :: r
    else
      match r with
      | h :: t => (a :: h) :: t
      | [] => [[a]]

/-- Python `".".join(parts)` on character lists. -/
def joinDot : List (List Char) → List Char
  | [] => []
  | [x] => x
  | x :: xs => x ++ '.' :: joinDot xs

/-- The case analysis of lines 111-122 computing the `(module, package)`
arguments passed to `find_spec` for one direct import `(source, name)` of a
file whose own resolution package context is `dependent_package`.  When
`source == "."` and `name` is `None`, the Python expression `"." + name`
raises `TypeError`; that is the `none` result (unreachable from parsed
trees). -/
def computeTarget (source : String) (name : Option String)
    (dependent_package : Option String) : Option (String × Option String) :=
  if source = "." then
    match name with
    | some n => some ("." ++ n, dependent_package)
    | none => none
  else if startswithDot source then
    some (source, dependent_package)
  else if containsDot source then
    let parts := splitOnDot source.data
    some (String.mk (parts.getLastD []), some (String.mk (joinDot parts.dropLast)))
  else
    some (source, none)

/-- Outcome of the black-box module-resolution oracle
`importlib.util.find_spec(module, package)` (line 124): it raises
`ModuleNotFoundError`, returns `None`, or returns a spec carrying `spec.name`
and `spec.origin` (absent origin means a built-in module). -/
inductive FindSpecResult where
  | notFound
  | noSpec
  | found (qualname : String) (origin : Option String)
deriving DecidableEq

/-- Content of one file of the modelled file system: a parseable module body,
or text on which `ast.parse` raises a `SyntaxError`. -/
inductive FileKind where
  | tree (body : List PyNode)
  | unparsable

/-- The environment: the module-resolution oracle and a finite file system
(paths absent from `files` raise `IOError` on `open`). -/
structure Env where
  findSpec : String → Option String → FindSpecResult
  files : List (String × FileKind)

/-- `find_imports(pyfile, package)` (lines 77-91): `.pyd` paths short-circuit
to an empty record list before any file access; otherwise the file is read
(absent file: `IOError`), parsed (`SyntaxError` from `ast.parse(source)`,
whose filename attribute is the `<unknown>` placeholder because only the
source text is passed), the finder run, and `direct_imports` returned. -/
def find_imports (env : Env) (pyfile : String) (package : Option String) :
    Except PyErr (List ImportSpec) :=
  if endswithPyd pyfile then .ok []
  else
    match env.files.lookup pyfile with
    | none => .error .ioError
    | some .unparsable => .error (.parseError ("<unknown>"))
    | some (.tree body) => .ok (runFinder package body).direct_imports

/-- Lines 129-131 on the insertion-ordered dict `modules`:
`dependencies = modules.setdefault(dependent, [])` followed by
`if qualname not in dependencies: dependencies.append(qualname)`. -/
def addEdge : List (String × List String) → String → String → List (String × List String)
  | [], dep, q => [(dep, [q])]
  | (d, l) :: rest, dep, q =>
    if d = dep then (d, if q ∈ l then l else l ++ [q]) :: rest
    else (d, l) :: addEdge rest dep q

/-- One queue entry `((dependent, dependent_package), path)` (lines 98, 100,
134, 136); the path component is optional because line 101 also tests for
`None`. -/
abbrev QEntry := (String × Option String) × Option String

/-- The resolver state mutated while iterating over one file's direct
imports: the `modules` dict, the instrumentation trace of recorded edges,
and the queue entries put by lines 133-136 (in order). -/
structure ResolState where
  mods : List (String × List String)
  edges : List (String × String)
  entries : List QEntry
deriving DecidableEq

/-- The body of the `for source, name in imports` loop (lines 109-136) for a
single import: compute the `find_spec` arguments; on `ModuleNotFoundError`
(`continue`) or a falsy spec do nothing; otherwise record the edge (dedup via
`addEdge`), compute `module_path = spec.origin or "built-in"` (Python `or`:
an absent or empty origin yields the sentinel) and put the next queue entry,
whose package context is `dependent` for relative sources and `qualname`
otherwise. -/
def processImport (env : Env) (dependent : String) (dependent_package : Option String)
    (st : ResolState) (imp : ImportSpec) : ResolState × Option PyErr :=
  match computeTarget imp.1 imp.2 dependent_package with
  | none => (st, some .typeError)
  | some (module, package) =>
    match env.findSpec module package with
    | .notFound => (st, none)
    | .noSpec => (st, none)
    | .found qualname origin =>
      let mods := addEdge st.mods dependent qualname
      let module_path := match origin with
        | some o => if o = "" then "built-in" else o
        | none => "built-in"
      let entry : QEntry := if startswithDot imp.1 then
          ((qualname, some dependent), some module_path)
        else ((qualname, some qualname), some module_path)
      ({ mods := mods, edges := st.edges ++ [(dependent, qualname)],
         entries := st.entries ++ [entry] }, none)

/-- The whole `for source, name in imports` loop; an error aborts it
(propagating), carrying the partially updated state. -/
def processImports (env : Env) (dependent : String) (dependent_package : Option String) :
    List ImportSpec → ResolState → ResolState × Option PyErr
  | [], st => (st, none)
  | i :: rest, st =>
    match processImport env dependent dependent_package st i with
    | (st', none) => processImports env dependent dependent_package rest st'
    | (st', some e) => (st', some e)

/-- Observable outcome of one `requirements_info` run: the returned `modules`
mapping, the edge and classification traces, and the error that would
propagate to the caller (`none` for a normal return). -/
structure RunResult where
  modules : List (String × List String)
  edges : List (String × String)
  classified : List String
  err : Option PyErr
deriving DecidableEq

/-- Number of known file paths not yet visited; the first component of the
termination measure of the resolver loop. -/
def countUnvisited (env : Env) (visited : List String) : Nat :=
  ((env.files.map Prod.fst).filter (fun k => !(visited.contains k))).length

theorem length_filter_le_of_imp {α : Type _} (l : List α) (q q' : α → Bool)
    (himp : ∀ x, q x = true → q' x = true) :
    (l.filter q).length ≤ (l.filter q').length := by
  induction l with
  | nil => simp
  | cons b t ih =>
    by_cases hb : q b = true
    · simp [List.filter_cons, hb, himp b hb, Nat.succ_le_succ ih]
    · simp only [Bool.not_eq_true] at hb
      by_cases hb' : q' b = true
      · simp [List.filter_cons, hb, hb']
        omega
      · simp only [Bool.not_eq_true] at hb'
        simp [List.filter_cons, hb, hb', ih]

theorem length_filter_lt_of_imp {α : Type _} (l : List α) (q q' : α → Bool)
    (himp : ∀ x, q x = true → q' x = true) (a : α) (ha : a ∈ l)
    (hqa : q a = false) (hq'a : q' a = true) :
    (l.filter q).length < (l.filter q').length := by
  induction l with
  | nil => cases ha
  | cons b t ih =>
    rcases List.mem_cons.mp ha with rfl | hat
    · have hle := length_filter_le_of_imp t q q' himp
      simp [List.filter_cons, hqa, hq'a]
      omega
    · by_cases hb : q b = true
      · simp [List.filter_cons, hb, himp b hb, Nat.succ_lt_succ (ih hat)]
      · simp only [Bool.not_eq_true] at hb
        by_cases hb' : q' b = true
        · have := ih hat
          simp [List.filter_cons, hb, hb']
          omega
        · simp only [Bool.not_eq_true] at hb'
          simp [List.filter_cons, hb, hb', ih hat]

theorem countUnvisited_lt (env : Env) (visited : List String) (p : String)
    (hk : p ∈ env.files.map Prod.fst) (hv : p ∉ visited) :
    countUnvisited env (p :: visited) < countUnvisited env visited := by
  refine length_filter_lt_of_imp _ _ _ ?himp p hk ?hqa ?hqb
  case himp =>
    intro x hx
    simp only [Bool.not_eq_true'] at hx ⊢
    simp only [List.contains_cons] at hx
    rcases Bool.or_eq_false_iff.mp hx with ⟨h1, h2⟩
    exact h2
  case hqa => simp
  case hqb => simpa using hv

theorem countUnvisited_eq_of_not_mem (env : Env) (visited : List String) (p : String)
    (hk : p ∉ env.files.map Prod.fst) :
    countUnvisited env (p :: visited) = countUnvisited env visited := by
  unfold countUnvisited
  congr 1
  apply List.filter_congr
  intro x hx
  have hxp : x ≠ p := fun h => hk (h ▸ hx)
  simp [List.contains_cons, hxp]

theorem lookup_mem_keys {β : Type _} (l : List (String × β)) (p : String) (v : β)
    (h : l.lookup p = some v) : p ∈ l.map Prod.fst := by
  induction l with
  | nil => simp [List.lookup] at h
  | cons b t ih =>
    rw [List.lookup] at h
    cases hbe : (p == b.1) with
    | true =>
      have hpb : p = b.1 := beq_iff_eq.mp hbe
      simp [hpb]
    | false =>
      rw [hbe] at h
      simp only [List.map_cons, List.mem_cons]
      exact Or.inr (ih h)

/-- The `while not queue.empty()` loop of `requirements_info` (lines
99-136): dequeue `((dependent, dependent_package), path)`; skip sentinel
paths (`None` / `"built-in"`, line 101) and already-visited paths (line
103); otherwise mark visited, run `find_imports` (an exception propagates,
aborting the run) and process the direct imports, appending the produced
queue entries.  Termination: each processing step either visits a new known
file path or leaves the queue strictly shorter. -/
def loop (env : Env) (visited : List String) (mods : List (String × List String))
    (edges : List (String × String)) (classified : List String) (queue : List QEntry) :
    RunResult :=
  match queue with
  | [] => ⟨mods, edges, classified, none⟩
  | ((dependent, dependent_package), path) :: rest =>
    match path with
    | none => loop env visited mods edges classified rest
    | some p =>
      if p = "built-in" then loop env visited mods edges classified rest
      else if p ∈ visited then loop env visited mods edges classified rest
      else
        match hf : find_imports env p dependent_package with
        | .error e => ⟨mods, edges, classified ++ [p], some e⟩
        | .ok im =>
          match hpr : processImports env dependent dependent_package im
            { mods := mods, edges := edges, entries := [] } with
          | (st, some e) => ⟨st.mods, st.edges, classified ++ [p], some e⟩
          | (st, none) => loop env (p :: visited) st.mods st.edges (classified ++ [p])
              (rest ++ st.entries)
termination_by (countUnvisited env visited, queue.length)
decreasing_by
  · exact Prod.Lex.right _ (by simp)
  · by_cases hk : p ∈ env.files.map Prod.fst
    · exact Prod.Lex.left _ _ (countUnvisited_lt env visited p hk (by assumption))
    · have him : im = [] := by
        unfold find_imports at hf
        by_cases hpyd : endswithPyd p = true
        · simp [hpyd] at hf
          exact hf
        · simp only [Bool.not_eq_true] at hpyd
          cases hl : env.files.lookup p with
          | none => simp [hpyd, hl] at hf
          | some fk => exact absurd (lookup_mem_keys _ _ _ hl) hk
      have hcu : (countUnvisited env (p :: visited)) = countUnvisited env visited :=
        countUnvisited_eq_of_not_mem env visited p hk
      rw [hcu]
      apply Prod.Lex.right
      rw [him] at hpr
      simp only [processImports] at hpr
      have hst : st = { mods := mods, edges := edges, entries := [] } :=
        (congrArg Prod.fst hpr).symm
      rw [hst]
      simp

/-- `requirements_info(pyfile)` (lines 94-137): empty visited set and
`modules` dict, queue seeded with `(("__main__", None), pyfile)`. -/
def requirements_info (env : Env) (pyfile : String) : RunResult :=
  loop env [] [] [] [] [(("__main__", none), some pyfile)]

/-! ### Classifier bucket and stack invariants -/

/-- The bucket invariant: each bucket is an order-preserving subsequence of
`imports`, and occurrence-wise the direct bucket is disjoint from the
conditional and function buckets. -/
def BucketInv (s : FinderState) : Prop :=
  s.direct_imports.Sublist s.imports ∧ s.conditional_imports.Sublist s.imports ∧
    s.functions_imports.Sublist s.imports ∧
    ∀ x : ImportSpec,
      s.direct_imports.count x + s.conditional_imports.count x ≤ s.imports.count x ∧
      s.direct_imports.count x + s.functions_imports.count x ≤ s.imports.count x

theorem addImport_stacks (info : ImportSpec) (s : FinderState) :
    (addImport info s).in_conditional = s.in_conditional ∧
    (addImport info s).in_function = s.in_function := by
  simp only [addImport]
  split <;> split <;> split <;> simp

theorem addImport_inv (info : ImportSpec) (s : FinderState) (h : BucketInv s) :
    BucketInv (addImport info s) := by
  obtain ⟨h1, h2, h3, h4⟩ := h
  by_cases hc : s.in_conditional = []
  · by_cases hfn : s.in_function = []
    · have he : addImport info s = { s with imports := s.imports ++ [info], direct_imports := s.direct_imports ++ [info] } := by
        simp [addImport, hc, hfn]
      rw [he]
      unfold BucketInv
      dsimp only
      refine ⟨h1.append (List.Sublist.refl _),
        h2.trans (List.sublist_append_left _ _),
        h3.trans (List.sublist_append_left _ _), fun x => ?_⟩
      have := h4 x
      simp only [List.count_append]
      omega
    · have he : addImport info s = { s with imports := s.imports ++ [info], functions_imports := s.functions_imports ++ [info] } := by
        simp [addImport, hc, hfn]
      rw [he]
      unfold BucketInv
      dsimp only
      refine ⟨h1.trans (List.sublist_append_left _ _),
        h2.trans (List.sublist_append_left _ _),
        h3.append (List.Sublist.refl _), fun x => ?_⟩
      have := h4 x
      simp only [List.count_append]
      omega
  · by_cases hfn : s.in_function = []
    · have he : addImport info s = { s with imports := s.imports ++ [info], conditional_imports := s.conditional_imports ++ [info] } := by
        simp [addImport, hc, hfn]
      rw [he]
      unfold BucketInv
      dsimp only
      refine ⟨h1.trans (List.sublist_append_left _ _),
        h2.append (List.Sublist.refl _),
        h3.trans (List.sublist_append_left _ _), fun x => ?_⟩
      have := h4 x
      simp only [List.count_append]
      omega
    · have he : addImport info s = { s with imports := s.imports ++ [info], conditional_imports := s.conditional_imports ++ [info], functions_imports := s.functions_imports ++ [info] } := by
        simp [addImport, hc, hfn]
      rw [he]
      unfold BucketInv
      dsimp only
      refine ⟨h1.trans (List.sublist_append_left _ _),
        h2.append (List.Sublist.refl _),
        h3.append (List.Sublist.refl _), fun x => ?_⟩
      have := h4 x
      simp only [List.count_append]
      omega

theorem foldl_stacks {α : Type _} (g : FinderState → α → FinderState)
    (hg : ∀ s a, (g s a).in_conditional = s.in_conditional ∧
      (g s a).in_function = s.in_function)
    (l : List α) (s : FinderState) :
    (l.foldl g s).in_conditional = s.in_conditional ∧
    (l.foldl g s).in_function = s.in_function := by
  induction l generalizing s with
  | nil => exact ⟨rfl, rfl⟩
  | cons a t ih =>
    simp only [List.foldl_cons]
    exact ⟨(ih (g s a)).1.trans (hg s a).1, (ih (g s a)).2.trans (hg s a).2⟩

theorem foldl_inv {α : Type _} (g : FinderState → α → FinderState)
    (hg : ∀ s a, BucketInv s → BucketInv (g s a)) (l : List α) (s : FinderState)
    (h : BucketInv s) : BucketInv (l.foldl g s) := by
  induction l generalizing s with
  | nil => exact h
  | cons a t ih => exact ih _ (hg s a h)

mutual

theorem visit_stacks (n : PyNode) (s : FinderState) :
    (visit n s).in_conditional = s.in_conditional ∧
    (visit n s).in_function = s.in_function := by
  cases n with
  | importNode names =>
    simp only [visit]
    exact foldl_stacks _ (fun s a => addImport_stacks _ _) names s
  | importFrom level m names =>
    simp only [visit]
    exact foldl_stacks _ (fun s a => addImport_stacks _ _) names s
  | ifNode body =>
    have h := visitList_stacks body { s with in_conditional := s.in_conditional ++ [()] }
    simp only [visit]
    exact ⟨by simp [h.1], by simp [h.2]⟩
  | functionDef body =>
    have h := visitList_stacks body { s with in_function := s.in_function ++ [()] }
    simp only [visit]
    exact ⟨by simp [h.1], by simp [h.2]⟩
  | asyncFunctionDef body =>
    have h := visitList_stacks body { s with in_function := s.in_function ++ [()] }
    simp only [visit]
    exact ⟨by simp [h.1], by simp [h.2]⟩
  | other body =>
    have h := visitList_stacks body s
    simpa only [visit] using h

theorem visitList_stacks (l : List PyNode) (s : FinderState) :
    (visitList l s).in_conditional = s.in_conditional ∧
    (visitList l s).in_function = s.in_function := by
  cases l with
  | nil => exact ⟨rfl, rfl⟩
  | cons n ns =>
    have h1 := visit_stacks n s
    have h2 := visitList_stacks ns (visit n s)
    simp only [visitList]
    exact ⟨h2.1.trans h1.1, h2.2.trans h1.2⟩

end

mutual

theorem visit_inv (n : PyNode) (s : FinderState) (h : BucketInv s) :
    BucketInv (visit n s) := by
  cases n with
  | importNode names =>
    simp only [visit]
    exact foldl_inv _ (fun s a => addImport_inv _ _) names s h
  | importFrom level m names =>
    simp only [visit]
    exact foldl_inv _ (fun s a => addImport_inv _ _) names s h
  | ifNode body =>
    have h2 := visitList_inv body { s with in_conditional := s.in_conditional ++ [()] } h
    simp only [visit]
    exact h2
  | functionDef body =>
    have h2 := visitList_inv body { s with in_function := s.in_function ++ [()] } h
    simp only [visit]
    exact h2
  | asyncFunctionDef body =>
    have h2 := visitList_inv body { s with in_function := s.in_function ++ [()] } h
    simp only [visit]
    exact h2
  | other body =>
    have h2 := visitList_inv body s h
    simpa only [visit] using h2

theorem visitList_inv (l : List PyNode) (s : FinderState) (h : BucketInv s) :
    BucketInv (visitList l s) := by
  cases l with
  | nil => exact h
  | cons n ns =>
    have h1 := visit_inv n s h
    have h2 := visitList_inv ns (visit n s) h1
    simpa only [visitList] using h2

end

theorem runFinder_inv (package : Option String) (body : List PyNode) :
    BucketInv (runFinder package body) := by
  apply visitList_inv
  simp [BucketInv, initFinder]

/-- Claim C9: the classifier's nesting stacks are balanced: visiting any node
leaves both `in_conditional` and `in_function` exactly as they were on entry,
and after a full traversal of any module body both stacks are empty, so a
finder's counters cannot leak nesting state into a later traversal. -/
theorem claim9_stack_discipline :
    (∀ (n : PyNode) (s : FinderState),
      (visit n s).in_conditional = s.in_conditional ∧
      (visit n s).in_function = s.in_function) ∧
    (∀ (package : Option String) (body : List PyNode),
      (runFinder package body).in_conditional = [] ∧
      (runFinder package body).in_function = []) := by
  refine ⟨visit_stacks, fun package body => ?_⟩
  have h := visitList_stacks body (initFinder package)
  simpa [runFinder, initFinder] using h

/-- Claim C1, counterexample: the same import spec occurring both at top
level and inside an `if` lands in `direct_imports` and in
`conditional_imports`, so those two lists are not disjoint as sets of
records. -/
theorem claim1_counterexample :
    (("os"), (none : Option String)) ∈
      (runFinder none [PyNode.importNode [("os")],
        PyNode.ifNode [PyNode.importNode [("os")]]]).direct_imports ∧
    (("os"), (none : Option String)) ∈
      (runFinder none [PyNode.importNode [("os")],
        PyNode.ifNode [PyNode.importNode [("os")]]]).conditional_imports := by
  decide

/-- Claim C1 (amended): every emitted record is appended to `imports`, to
`conditional_imports` iff nested inside at least one `if`, to
`functions_imports` iff nested inside at least one (async) function body and
to `direct_imports` iff neither, so each bucket is an order-preserving
subsequence of `imports`, and occurrence-wise the direct bucket is disjoint
from the conditional and the function buckets: for every spec `x`, the
occurrences of `x` in `direct_imports` plus those in `conditional_imports`
(resp. `functions_imports`) never exceed those in `imports`.  Disjointness of
the plain value sets does not hold (see the counterexample). -/
theorem claim1_buckets (package : Option String) (body : List PyNode) (x : ImportSpec) :
    (runFinder package body).direct_imports.Sublist (runFinder package body).imports ∧
    (runFinder package body).conditional_imports.Sublist (runFinder package body).imports ∧
    (runFinder package body).functions_imports.Sublist (runFinder package body).imports ∧
    (runFinder package body).direct_imports.count x
        + (runFinder package body).conditional_imports.count x
      ≤ (runFinder package body).imports.count x ∧
    (runFinder package body).direct_imports.count x
        + (runFinder package body).functions_imports.count x
      ≤ (runFinder package body).imports.count x := by
  have h := runFinder_inv package body
  exact ⟨h.1, h.2.1, h.2.2.1, (h.2.2.2 x).1, (h.2.2.2 x).2⟩

/-! ### Properties of the embedded string operations -/

theorem splitOnDot_ne_nil (cs : List Char) : splitOnDot cs ≠ [] := by
  cases cs with
  | nil => simp [splitOnDot]
  | cons a rest =>
    by_cases ha : a = '.'
    · simp [splitOnDot, ha]
    · cases hr : splitOnDot rest with
      | nil => simp [splitOnDot, ha, hr]
      | cons h t => simp [splitOnDot, ha, hr]

theorem joinDot_cons_head (a : Char) (h : List Char) (t : List (List Char)) :
    joinDot ((a :: h) :: t) = a :: joinDot (h :: t) := by
  cases t <;> simp [joinDot]

theorem joinDot_splitOnDot (cs : List Char) : joinDot (splitOnDot cs) = cs := by
  induction cs with
  | nil => rfl
  | cons a rest ih =>
    by_cases ha : a = '.'
    · subst ha
      cases hr : splitOnDot rest with
      | nil => exact absurd hr (splitOnDot_ne_nil rest)
      | cons h t =>
        calc joinDot (splitOnDot ('.' :: rest)) = joinDot ([] :: h :: t) := by
              simp [splitOnDot, hr]
          _ = '.' :: joinDot (h :: t) := by simp [joinDot]
          _ = '.' :: rest := by rw [← hr, ih]
    · cases hr : splitOnDot rest with
      | nil => exact absurd hr (splitOnDot_ne_nil rest)
      | cons h t =>
        calc joinDot (splitOnDot (a :: rest)) = joinDot ((a :: h) :: t) := by
              simp [splitOnDot, ha, hr]
          _ = a :: joinDot (h :: t) := joinDot_cons_head a h t
          _ = a :: rest := by rw [← hr, ih]

theorem not_dot_mem_of_mem_splitOnDot (cs : List Char) (part : List Char)
    (hp : part ∈ splitOnDot cs) : '.' ∉ part := by
  induction cs generalizing part with
  | nil =>
    simp [splitOnDot] at hp
    simp [hp]
  | cons a rest ih =>
    by_cases ha : a = '.'
    · rw [ha] at hp
      simp only [splitOnDot, reduceIte, List.mem_cons] at hp
      rcases hp with rfl | hp
      · simp
      · exact ih part hp
    · cases hr : splitOnDot rest with
      | nil => exact absurd hr (splitOnDot_ne_nil rest)
      | cons h t =>
        simp only [splitOnDot, ha, reduceIte, hr, List.mem_cons] at hp
        rcases hp with rfl | hp
        · intro hmem
          rcases List.mem_cons.mp hmem with he | hmem2
          · exact ha he.symm
          · exact ih h (hr ▸ List.mem_cons_self h t) hmem2
        · exact ih part (hr ▸ List.mem_cons_of_mem h hp)

theorem two_le_splitOnDot_length (cs : List Char) (hd : '.' ∈ cs) :
    2 ≤ (splitOnDot cs).length := by
  induction cs with
  | nil => cases hd
  | cons a rest ih =>
    by_cases ha : a = '.'
    · have hne := splitOnDot_ne_nil rest
      have : 1 ≤ (splitOnDot rest).length := List.length_pos.mpr hne
      simp only [splitOnDot, ha, reduceIte, List.length_cons]
      omega
    · have hdr : '.' ∈ rest := by
        rcases List.mem_cons.mp hd with he | hm
        · exact absurd he.symm ha
        · exact hm
      have h2 := ih hdr
      cases hr : splitOnDot rest with
      | nil => exact absurd hr (splitOnDot_ne_nil rest)
      | cons h t =>
        rw [hr] at h2
        simp only [splitOnDot, ha, reduceIte, hr, List.length_cons] at h2 ⊢
        omega

theorem joinDot_append_last (l : List (List Char)) (x : List Char) (hl : l ≠ []) :
    joinDot (l ++ [x]) = joinDot l ++ '.' :: x := by
  induction l with
  | nil => exact absurd rfl hl
  | cons a t ih =>
    cases t with
    | nil => simp [joinDot]
    | cons b u =>
      have h2 := ih (List.cons_ne_nil b u)
      calc joinDot ((a :: b :: u) ++ [x]) = a ++ '.' :: joinDot ((b :: u) ++ [x]) := by
            simp [joinDot]
        _ = a ++ '.' :: (joinDot (b :: u) ++ '.' :: x) := by rw [h2]
        _ = (a ++ '.' :: joinDot (b :: u)) ++ '.' :: x := by simp
        _ = joinDot (a :: b :: u) ++ '.' :: x := by simp [joinDot]

theorem dropLast_append_getLastD {α : Type _} (l : List α) (d : α) (h : l ≠ []) :
    l.dropLast ++ [l.getLastD d] = l := by
  induction l generalizing d with
  | nil => exact absurd rfl h
  | cons a t ih =>
    cases t with
    | nil => rfl
    | cons b u =>
      have h3 := ih a (List.cons_ne_nil b u)
      simp only [List.dropLast_cons₂, List.getLastD_cons, List.cons_append] at h3 ⊢
      rw [h3]

theorem ne_dot_of_startswithDot_false (source : String) (h : startswithDot source = false) :
    source ≠ "." := by
  intro he
  rw [he] at h
  exact absurd h (by decide)

/-- Claim C2: the `(module, package)` arguments handed to the resolution
oracle for a direct import `(source, name)` follow exactly the case analysis
of lines 111-122: a lone relative marker with a name present resolves to
`"." + name` with the current package context unchanged; any other source
starting with a relative marker is passed through unchanged with the current
package context; an absolute dotted path is split into its final component
(dot-free) and the dot-joined prefix, which becomes the package context; a
bare absolute name is passed with no package context. -/
theorem claim2_target_case_analysis (source : String) (name : Option String)
    (pkg : Option String) :
    (∀ n, source = "." → name = some n →
      computeTarget source name pkg = some ("." ++ n, pkg)) ∧
    (source ≠ "." → startswithDot source = true →
      computeTarget source name pkg = some (source, pkg)) ∧
    (startswithDot source = false → containsDot source = true →
      ∃ m parent, computeTarget source name pkg = some (m, some parent) ∧
        parent.data ++ '.' :: m.data = source.data ∧ '.' ∉ m.data) ∧
    (startswithDot source = false → containsDot source = false →
      computeTarget source name pkg = some (source, none)) := by
  refine ⟨?_, ?_, ?_, ?_⟩
  · intro n hs hn
    simp [computeTarget, hs, hn]
  · intro hne hsw
    simp [computeTarget, hne, hsw]
  · intro hsw hcd
    have hne : source ≠ "." := ne_dot_of_startswithDot_false source hsw
    refine ⟨String.mk ((splitOnDot source.data).getLastD []),
      String.mk (joinDot (splitOnDot source.data).dropLast), ?_, ?_, ?_⟩
    · simp [computeTarget, hne, hsw, hcd]
    · have hmem : '.' ∈ source.data := by simpa [containsDot] using hcd
      have hne2 := splitOnDot_ne_nil source.data
      have hlen := two_le_splitOnDot_length source.data hmem
      have hdl : (splitOnDot source.data).dropLast ≠ [] := by
        have := List.length_dropLast (splitOnDot source.data)
        intro hnil
        rw [hnil] at this
        simp at this
        omega
      have hsplit := dropLast_append_getLastD (splitOnDot source.data) [] hne2
      have hjoin := joinDot_append_last (splitOnDot source.data).dropLast
        ((splitOnDot source.data).getLastD []) hdl
      show joinDot (splitOnDot source.data).dropLast
          ++ '.' :: (splitOnDot source.data).getLastD [] = source.data
      rw [← hjoin, hsplit, joinDot_splitOnDot]
    · have hne2 := splitOnDot_ne_nil source.data
      have hsplit := dropLast_append_getLastD (splitOnDot source.data) [] hne2
      apply not_dot_mem_of_mem_splitOnDot source.data
      show (splitOnDot source.data).getLastD [] ∈ splitOnDot source.data
      have hmem : (splitOnDot source.data).getLastD []
          ∈ (splitOnDot source.data).dropLast ++ [(splitOnDot source.data).getLastD []] :=
        List.mem_append_right _ (List.mem_singleton.mpr rfl)
      rw [hsplit] at hmem
      exact hmem
  · intro hsw hcd
    have hne : source ≠ "." := ne_dot_of_startswithDot_false source hsw
    simp [computeTarget, hne, hsw, hcd]

/-- Claim C2, witness: the four cases at concrete inputs, obtained from the
case-analysis theorem. -/
theorem claim2_witness :
    computeTarget (".") (some ("b")) (some ("pkg.sub")) = some ((".b"), some ("pkg.sub")) ∧
    computeTarget ("..utils") none (some ("pkg.sub")) = some (("..utils"), some ("pkg.sub")) ∧
    (∃ m parent, computeTarget ("a.b.c") none none = some (m, some parent) ∧
      parent.data ++ '.' :: m.data = ("a.b.c" : String).data ∧ '.' ∉ m.data) ∧
    computeTarget ("os") none none = some (("os"), none) := by
  refine ⟨?_, ?_, ?_, ?_⟩
  · have h := (claim2_target_case_analysis (".") (some ("b")) (some ("pkg.sub"))).1
      ("b") rfl rfl
    rw [h]
    decide
  · exact (claim2_target_case_analysis ("..utils") none (some ("pkg.sub"))).2.1
      (by decide) (by decide)
  · exact (claim2_target_case_analysis ("a.b.c") none none).2.2.1 (by decide) (by decide)
  · exact (claim2_target_case_analysis ("os") none none).2.2.2 (by decide) (by decide)

/-- Claim C4, counterexample: in a file whose package context is `pkg.sub`,
the statement `from .. import c` (classified as the record `("..", "c")`) is
resolved by lines 114-116 with package context `pkg.sub` — not `pkg` as the
claim states — and with target module `".."` (the name `c` is dropped: only
the exact source `"."` triggers the `"." + name` branch). -/
theorem claim4_counterexample :
    (runFinder (some ("pkg.sub")) [PyNode.importFrom 2 none [("c")]]).direct_imports
      = [((".."), some ("c"))] ∧
    computeTarget ("..") (some ("c")) (some ("pkg.sub"))
      = some ((".."), some ("pkg.sub")) ∧
    some ("pkg.sub") ≠ some ("pkg") := by
  refine ⟨by decide, by decide, by decide⟩

/-- Claim C4 (amended): for a file `pkg/sub/a.py` whose package context is
`pkg.sub`, `from . import b` is resolved with target `".b"` and package
context `pkg.sub` (as claimed), while `from .. import c` is resolved with
target `".."` unchanged and package context `pkg.sub` as well — the oracle
then interprets `".."` relative to `pkg.sub`, i.e. as the parent package
`pkg`, and the imported name `c` never enters the target. -/
theorem claim4_relative_resolution :
    (runFinder (some ("pkg.sub")) [PyNode.importFrom 1 none [("b")],
        PyNode.importFrom 2 none [("c")]]).direct_imports
      = [((".") , some ("b")), ((".."), some ("c"))] ∧
    computeTarget (".") (some ("b")) (some ("pkg.sub")) = some ((".b"), some ("pkg.sub")) ∧
    computeTarget ("..") (some ("c")) (some ("pkg.sub")) = some ((".."), some ("pkg.sub")) := by
  refine ⟨by decide, by decide, by decide⟩

/-! ### Resolver loop: branch unfolding and invariants -/

theorem loop_nil (env : Env) (visited : List String) (mods : List (String × List String))
    (edges : List (String × String)) (classified : List String) :
    loop env visited mods edges classified [] = ⟨mods, edges, classified, none⟩ := by
  rw [loop]

theorem loop_none (env : Env) (visited : List String) (mods : List (String × List String))
    (edges : List (String × String)) (classified : List String) (dep : String)
    (dp : Option String) (rest : List QEntry) :
    loop env visited mods edges classified (((dep, dp), none) :: rest)
      = loop env visited mods edges classified rest := by
  rw [loop]

theorem loop_builtin (env : Env) (visited : List String) (mods : List (String × List String))
    (edges : List (String × String)) (classified : List String) (dep : String)
    (dp : Option String) (rest : List QEntry) (p : String) (hb : p = "built-in") :
    loop env visited mods edges classified (((dep, dp), some p) :: rest)
      = loop env visited mods edges classified rest := by
  subst hb
  rw [loop]
  rw [if_pos rfl]

theorem loop_visited (env : Env) (visited : List String) (mods : List (String × List String))
    (edges : List (String × String)) (classified : List String) (dep : String)
    (dp : Option String) (rest : List QEntry) (p : String)
    (hb : p ≠ "built-in") (hv : p ∈ visited) :
    loop env visited mods edges classified (((dep, dp), some p) :: rest)
      = loop env visited mods edges classified rest := by
  rw [loop]
  rw [if_neg hb, if_pos hv]

theorem loop_error (env : Env) (visited : List String) (mods : List (String × List String))
    (edges : List (String × String)) (classified : List String) (dep : String)
    (dp : Option String) (rest : List QEntry) (p : String) (e : PyErr)
    (hb : p ≠ "built-in") (hv : p ∉ visited) (hf : find_imports env p dp = .error e) :
    loop env visited mods edges classified (((dep, dp), some p) :: rest)
      = ⟨mods, edges, classified ++ [p], some e⟩ := by
  rw [loop]
  rw [if_neg hb, if_neg hv]
  split
  next e2 heq => rw [hf] at heq; cases heq; rfl
  next im heq => rw [hf] at heq; cases heq

theorem loop_ok_err (env : Env) (visited : List String) (mods : List (String × List String))
    (edges : List (String × String)) (classified : List String) (dep : String)
    (dp : Option String) (rest : List QEntry) (p : String) (im : List ImportSpec)
    (st : ResolState) (e : PyErr)
    (hb : p ≠ "built-in") (hv : p ∉ visited) (hf : find_imports env p dp = .ok im)
    (hpr : processImports env dep dp im { mods := mods, edges := edges, entries := [] }
      = (st, some e)) :
    loop env visited mods edges classified (((dep, dp), some p) :: rest)
      = ⟨st.mods, st.edges, classified ++ [p], some e⟩ := by
  rw [loop]
  rw [if_neg hb, if_neg hv]
  split
  next e2 heq => rw [hf] at heq; cases heq
  next im2 heq =>
    rw [hf] at heq
    cases heq
    split
    next st2 e2 heq2 => rw [hpr] at heq2; cases heq2; rfl
    next st2 heq2 => rw [hpr] at heq2; cases heq2

theorem loop_ok (env : Env) (visited : List String) (mods : List (String × List String))
    (edges : List (String × String)) (classified : List String) (dep : String)
    (dp : Option String) (rest : List QEntry) (p : String) (im : List ImportSpec)
    (st : ResolState)
    (hb : p ≠ "built-in") (hv : p ∉ visited) (hf : find_imports env p dp = .ok im)
    (hpr : processImports env dep dp im { mods := mods, edges := edges, entries := [] }
      = (st, none)) :
    loop env visited mods edges classified (((dep, dp), some p) :: rest)
      = loop env (p :: visited) st.mods st.edges (classified ++ [p]) (rest ++ st.entries) := by
  rw [loop]
  rw [if_neg hb, if_neg hv]
  split
  next e2 heq => rw [hf] at heq; cases heq
  next im2 heq =>
    rw [hf] at heq
    cases heq
    split
    next st2 e2 heq2 => rw [hpr] at heq2; cases heq2
    next st2 heq2 => rw [hpr] at heq2; cases heq2; rfl

theorem classified_step (classified : List String) (visited : List String) (p : String)
    (h1 : classified.Nodup) (h2 : ∀ q ∈ classified, q ∈ visited)
    (h3 : ("built-in") ∉ classified) (hb : p ≠ "built-in") (hv : p ∉ visited) :
    (classified ++ [p]).Nodup ∧ (∀ q ∈ classified ++ [p], q ∈ p :: visited) ∧
      ("built-in") ∉ classified ++ [p] := by
  refine ⟨?_, ?_, ?_⟩
  · apply List.Nodup.append h1 (List.nodup_singleton p)
    intro q hq1 hq2
    rw [List.mem_singleton] at hq2
    exact hv (hq2 ▸ h2 q hq1)
  · intro q hq
    rcases List.mem_append.mp hq with hc | he
    · exact List.mem_cons_of_mem _ (h2 q hc)
    · rw [List.mem_singleton.mp he]
      exact List.mem_cons_self _ _
  · simp only [List.mem_append, List.mem_singleton]
    rintro (hc | he)
    · exact h3 hc
    · exact hb he.symm

theorem loop_classified_inv (env : Env) (visited : List String)
    (mods : List (String × List String)) (edges : List (String × String))
    (classified : List String) (queue : List QEntry) :
    classified.Nodup → (∀ q ∈ classified, q ∈ visited) → ("built-in") ∉ classified →
    ((loop env visited mods edges classified queue).classified.Nodup ∧
      ("built-in") ∉ (loop env visited mods edges classified queue).classified) := by
  induction visited, mods, edges, classified, queue using loop.induct with
  | env => exact env
  | case1 visited mods edges classified =>
    intro h1 h2 h3
    rw [loop_nil]
    exact ⟨h1, h3⟩
  | case2 visited mods edges classified dep dp rest ih =>
    intro h1 h2 h3
    rw [loop_none]
    exact ih h1 h2 h3
  | case3 visited mods edges classified dep dp rest ih =>
    intro h1 h2 h3
    rw [loop_builtin env visited mods edges classified dep dp rest _ rfl]
    exact ih h1 h2 h3
  | case4 visited mods edges classified dep dp rest p hb hv ih =>
    intro h1 h2 h3
    rw [loop_visited env visited mods edges classified dep dp rest p hb hv]
    exact ih h1 h2 h3
  | case5 visited mods edges classified dep dp rest p hb hv e hf =>
    intro h1 h2 h3
    rw [loop_error env visited mods edges classified dep dp rest p e hb hv hf]
    obtain ⟨hn, hm, hbm⟩ := classified_step classified visited p h1 h2 h3 hb hv
    exact ⟨hn, hbm⟩
  | case6 visited mods edges classified dep dp rest p hb hv im hf st e hpr =>
    intro h1 h2 h3
    rw [loop_ok_err env visited mods edges classified dep dp rest p im st e hb hv hf hpr]
    obtain ⟨hn, hm, hbm⟩ := classified_step classified visited p h1 h2 h3 hb hv
    exact ⟨hn, hbm⟩
  | case7 visited mods edges classified dep dp rest p hb hv im hf st hpr ih =>
    intro h1 h2 h3
    rw [loop_ok env visited mods edges classified dep dp rest p im st hb hv hf hpr]
    obtain ⟨hn, hm, hbm⟩ := classified_step classified visited p h1 h2 h3 hb hv
    exact ih hn hm hbm

def buildMods (edges : List (String × String)) : List (String × List String) :=
  edges.foldl (fun m e => addEdge m e.1 e.2) []

def depsOf (mods : List (String × List String)) (dep : String) : List String :=
  (mods.lookup dep).getD []

def dedupAppend (l : List String) (q : String) : List String :=
  if q ∈ l then l else l ++ [q]

def firstSeen (xs : List String) : List String := xs.foldl dedupAppend []

theorem depsOf_nil (dep : String) : depsOf [] dep = [] := rfl

theorem depsOf_addEdge (mods : List (String × List String)) (d q dep : String) :
    depsOf (addEdge mods d q) dep
      = if dep = d then dedupAppend (depsOf mods d) q else depsOf mods dep := by
  induction mods with
  | nil =>
    by_cases hd : dep = d
    · simp [depsOf, addEdge, List.lookup, hd, dedupAppend]
    · simp [depsOf, addEdge, List.lookup, hd,
        show (dep == d) = false from beq_eq_false_iff_ne.mpr hd]
  | cons b rest ih =>
    obtain ⟨d2, l2⟩ := b
    by_cases hd2 : d2 = d
    · subst hd2
      by_cases hd : dep = d2
      · subst hd
        simp [depsOf, addEdge, List.lookup, dedupAppend]
      · simp [depsOf, addEdge, List.lookup, hd,
          show (dep == d2) = false from beq_eq_false_iff_ne.mpr hd]
    · by_cases hd : dep = d2
      · subst hd
        simp [depsOf, addEdge, List.lookup, hd2,
          show dep ≠ d from fun h => hd2 (h ▸ rfl)]
      · have ih2 := ih
        simp only [depsOf, addEdge, hd2, reduceIte, List.lookup,
          show (dep == d2) = false from beq_eq_false_iff_ne.mpr hd,
          show (d == d2) = false from beq_eq_false_iff_ne.mpr
            (fun h => hd2 h.symm)] at ih2 ⊢
        exact ih2

theorem depsOf_foldl (es : List (String × String)) (mods : List (String × List String))
    (dep : String) :
    depsOf (es.foldl (fun m e => addEdge m e.1 e.2) mods) dep
      = ((es.filter (fun e => e.1 == dep)).map Prod.snd).foldl dedupAppend (depsOf mods dep) := by
  induction es generalizing mods with
  | nil => rfl
  | cons e es ih =>
    rw [List.foldl_cons, ih]
    by_cases he : e.1 = dep
    · rw [depsOf_addEdge]
      simp [List.filter_cons, he]
    · rw [depsOf_addEdge]
      simp [List.filter_cons, he, beq_eq_false_iff_ne.mpr he,
        show dep ≠ e.1 from fun h => he h.symm]

theorem depsOf_buildMods (es : List (String × String)) (dep : String) :
    depsOf (buildMods es) dep
      = firstSeen ((es.filter (fun e => e.1 == dep)).map Prod.snd) := by
  unfold buildMods firstSeen
  rw [depsOf_foldl]
  rfl

theorem dedupAppend_nodup (l : List String) (q : String) (h : l.Nodup) :
    (dedupAppend l q).Nodup := by
  unfold dedupAppend
  by_cases hq : q ∈ l
  · simp [hq, h]
  · simp only [hq, reduceIte]
    apply List.Nodup.append h (List.nodup_singleton q)
    intro a ha1 ha2
    rw [List.mem_singleton] at ha2
    exact hq (ha2 ▸ ha1)

theorem foldl_dedupAppend_nodup (xs : List String) (l : List String) (h : l.Nodup) :
    (xs.foldl dedupAppend l).Nodup := by
  induction xs generalizing l with
  | nil => exact h
  | cons x xs ih => exact ih _ (dedupAppend_nodup l x h)

theorem firstSeen_nodup (xs : List String) : (firstSeen xs).Nodup :=
  foldl_dedupAppend_nodup xs [] List.nodup_nil

theorem lookup_addEdge_isSome (mods : List (String × List String)) (d q dep : String) :
    ((addEdge mods d q).lookup dep).isSome = (dep == d || (mods.lookup dep).isSome) := by
  induction mods with
  | nil =>
    by_cases hd : dep = d
    · simp [addEdge, List.lookup, hd]
    · simp [addEdge, List.lookup, beq_eq_false_iff_ne.mpr hd]
  | cons b rest ih =>
    obtain ⟨d2, l2⟩ := b
    by_cases hd2 : d2 = d
    · subst hd2
      by_cases hd : dep = d2
      · simp [addEdge, List.lookup, hd]
      · simp [addEdge, List.lookup, beq_eq_false_iff_ne.mpr hd]
    · by_cases hd : dep = d2
      · simp [addEdge, hd2, List.lookup, hd,
          show (d2 == d) = false from beq_eq_false_iff_ne.mpr hd2]
      · simp only [addEdge, hd2, reduceIte, List.lookup,
          show (dep == d2) = false from beq_eq_false_iff_ne.mpr hd]
        exact ih

theorem lookup_foldl_addEdge_isSome (es : List (String × String))
    (mods : List (String × List String)) (dep : String) :
    ((es.foldl (fun m e => addEdge m e.1 e.2) mods).lookup dep).isSome
      = ((mods.lookup dep).isSome || es.any (fun e => dep == e.1)) := by
  induction es generalizing mods with
  | nil => simp
  | cons e es ih =>
    rw [List.foldl_cons, ih, lookup_addEdge_isSome]
    simp [Bool.or_comm, Bool.or_assoc, Bool.or_left_comm]

theorem processImport_mods (env : Env) (dep : String) (dp : Option String)
    (st : ResolState) (imp : ImportSpec) (h : st.mods = buildMods st.edges) :
    (processImport env dep dp st imp).1.mods
      = buildMods (processImport env dep dp st imp).1.edges := by
  cases hct : computeTarget imp.1 imp.2 dp with
  | none => simp only [processImport, hct]; exact h
  | some t =>
    obtain ⟨module, package⟩ := t
    cases hfs : env.findSpec module package with
    | notFound => simp only [processImport, hct, hfs]; exact h
    | noSpec => simp only [processImport, hct, hfs]; exact h
    | found q o =>
      simp only [processImport, hct, hfs]
      show addEdge st.mods dep q = buildMods (st.edges ++ [(dep, q)])
      rw [h]
      unfold buildMods
      rw [List.foldl_append]
      rfl

theorem processImports_mods (env : Env) (dep : String) (dp : Option String)
    (im : List ImportSpec) (st : ResolState) (h : st.mods = buildMods st.edges) :
    (processImports env dep dp im st).1.mods
      = buildMods (processImports env dep dp im st).1.edges := by
  induction im generalizing st with
  | nil => exact h
  | cons i rest ih =>
    have hp := processImport_mods env dep dp st i h
    rw [processImports]
    cases hpi : processImport env dep dp st i with
    | mk st2 err =>
      rw [hpi] at hp
      cases err with
      | none => exact ih st2 hp
      | some e => exact hp

theorem loop_mods_inv (env : Env) (visited : List String)
    (mods : List (String × List String)) (edges : List (String × String))
    (classified : List String) (queue : List QEntry) :
    mods = buildMods edges →
    ((loop env visited mods edges classified queue).modules
      = buildMods (loop env visited mods edges classified queue).edges) := by
  induction visited, mods, edges, classified, queue using loop.induct with
  | env => exact env
  | case1 visited mods edges classified =>
    intro h
    rw [loop_nil]
    exact h
  | case2 visited mods edges classified dep dp rest ih =>
    intro h
    rw [loop_none]
    exact ih h
  | case3 visited mods edges classified dep dp rest ih =>
    intro h
    rw [loop_builtin env visited mods edges classified dep dp rest _ rfl]
    exact ih h
  | case4 visited mods edges classified dep dp rest p hb hv ih =>
    intro h
    rw [loop_visited env visited mods edges classified dep dp rest p hb hv]
    exact ih h
  | case5 visited mods edges classified dep dp rest p hb hv e hf =>
    intro h
    rw [loop_error env visited mods edges classified dep dp rest p e hb hv hf]
    exact h
  | case6 visited mods edges classified dep dp rest p hb hv im hf st e hpr =>
    intro h
    rw [loop_ok_err env visited mods edges classified dep dp rest p im st e hb hv hf hpr]
    have hp := processImports_mods env dep dp im { mods := mods, edges := edges, entries := [] } h
    rw [hpr] at hp
    exact hp
  | case7 visited mods edges classified dep dp rest p hb hv im hf st hpr ih =>
    intro h
    rw [loop_ok env visited mods edges classified dep dp rest p im st hb hv hf hpr]
    have hp := processImports_mods env dep dp im { mods := mods, edges := edges, entries := [] } h
    rw [hpr] at hp
    exact ih hp

/-! ### Concrete environments used by witnesses and counterexamples -/

/-- An oracle that resolves `os` as a built-in (a spec with no origin) and
reports everything else as not found; one entry file importing `os`. -/
def builtinEnv : Env :=
  ⟨fun m _ => if m = ("os") then .found ("os") none else .notFound,
    [(("main.py"), FileKind.tree [PyNode.importNode [("os")]])]⟩

/-- An oracle that finds nothing; the entry file has one unresolvable
import. -/
def noResolveEnv : Env :=
  ⟨fun _ _ => .notFound,
    [(("main.py"), FileKind.tree [PyNode.importNode [("x")]])]⟩

/-- A file system with two modules importing each other cyclically. -/
def cycEnv : Env :=
  ⟨fun m _ =>
    if m = ("a") then .found ("a") (some ("a.py"))
    else if m = ("b") then .found ("b") (some ("b.py"))
    else .notFound,
    [(("a.py"), FileKind.tree [PyNode.importNode [("b")]]),
      (("b.py"), FileKind.tree [PyNode.importNode [("a")]])]⟩

/-- An entry file whose content does not parse. -/
def badEnv : Env := ⟨fun _ _ => .notFound, [(("main.py"), FileKind.unparsable)]⟩

/-! ### Resolver claims -/

/-- Claim C7: a direct import whose target the oracle reports as not found —
whether by raising `ModuleNotFoundError` or by returning no spec — is skipped
silently: no graph edge, no error, nothing enqueued, and processing
continues with the remaining imports of the file. -/
theorem claim7_not_found_skipped (env : Env) (dependent : String) (dp : Option String)
    (imp : ImportSpec) (rest : List ImportSpec) (st : ResolState) (m : String)
    (p : Option String) (hct : computeTarget imp.1 imp.2 dp = some (m, p))
    (hns : env.findSpec m p = .notFound ∨ env.findSpec m p = .noSpec) :
    processImports env dependent dp (imp :: rest) st
      = processImports env dependent dp rest st := by
  rw [processImports]
  rcases hns with hn | hn <;> simp only [processImport, hct, hn]

/-- Claim C7, witness: a concrete unresolvable import is a no-op. -/
theorem claim7_witness :
    processImports noResolveEnv ("__main__") none [(("requests"), none)]
        ⟨[], [], []⟩
      = processImports noResolveEnv ("__main__") none [] ⟨[], [], []⟩ :=
  claim7_not_found_skipped noResolveEnv ("__main__") none (("requests"), none) []
    ⟨[], [], []⟩ ("requests") none (by decide) (Or.inl rfl)

/-- Claim C3, counterexample: for an import resolved as built-in (spec with
no origin), the resolver records the edge but, contrary to the claim, it
does enqueue an entry for that module — with the sentinel path
`"built-in"` (lines 132-136 run `queue.put` unconditionally once a spec is
obtained). -/
theorem claim3_counterexample :
    (processImports builtinEnv ("__main__") none [(("os"), none)]
        ⟨[], [], []⟩).1.mods = [(("__main__"), [("os")])] ∧
    (processImports builtinEnv ("__main__") none [(("os"), none)]
        ⟨[], [], []⟩).1.entries = [((("os"), some ("os")), some (("built-in")))] := by
  exact ⟨rfl, rfl⟩

/-- Claim C3 (amended): for a built-in module the resolver records the
dependency edge and enqueues an entry with the sentinel path `"built-in"`,
which every dequeue skips before classification (line 101), so a built-in
module's body is never classified: no run ever passes the sentinel path to
`find_imports`. -/
theorem claim3_builtin_never_classified (env : Env) (pyfile : String) :
    ("built-in") ∉ (requirements_info env pyfile).classified := by
  exact (loop_classified_inv env [] [] [] []
    [((("__main__"), none), some pyfile)] List.nodup_nil (by simp) (by simp)).2

/-- Claim C5: every run classifies each file path at most once (the
`classified` trace of paths passed to `find_imports` has no duplicates), and
the resolver terminates even on cyclic imports — `loop` is total by
construction, and on a concrete two-module cycle the run classifies exactly
the two files, in breadth-first order. -/
theorem claim5_visited_once :
    (∀ (env : Env) (pyfile : String),
      (requirements_info env pyfile).classified.Nodup) ∧
    (requirements_info cycEnv ("a.py")).classified = [("a.py"), ("b.py")] := by
  constructor
  · intro env pyfile
    exact (loop_classified_inv env [] [] [] []
      [((("__main__"), none), some pyfile)] List.nodup_nil (by simp) (by simp)).1
  · unfold requirements_info
    simp [loop, find_imports, cycEnv, endswithPyd, List.isSuffixOf, List.isPrefixOf,
      List.lookup, runFinder, visitList, visit, addImport, initFinder, processImports,
      processImport, computeTarget, startswithDot, containsDot, addEdge]

/-- Claim C6: for every dependent, the final dependency list equals the
fold of "append iff not already present" (`dedupAppend`, lines 130-131) over
the successful resolutions recorded for that dependent, in emission order —
first-seen-order dedup, with edges only ever appended — and is therefore
duplicate-free. -/
theorem claim6_dedup_first_seen (env : Env) (pyfile : String) (dep : String) :
    depsOf (requirements_info env pyfile).modules dep
      = firstSeen (((requirements_info env pyfile).edges.filter
          (fun e => e.1 == dep)).map Prod.snd) ∧
    (depsOf (requirements_info env pyfile).modules dep).Nodup := by
  unfold requirements_info
  have h := loop_mods_inv env [] [] [] [] [((("__main__"), none), some pyfile)] rfl
  rw [h]
  exact ⟨depsOf_buildMods _ _, by rw [depsOf_buildMods]; exact firstSeen_nodup _⟩

/-- Claim C8, counterexample: on an unparsable entry file `main.py`, the
propagating error is a `SyntaxError` whose filename attribute is the
`<unknown>` placeholder — `ast.parse` is called on the source text alone
(line 84), so the error does not name the file. -/
theorem claim8_counterexample :
    (requirements_info badEnv ("main.py")).err
        = some (PyErr.parseError ("<unknown>")) ∧
    ("<unknown>") ≠ ("main.py") := by
  constructor
  · unfold requirements_info
    rw [loop_error badEnv [] [] [] [] ("__main__") none [] ("main.py")
      (PyErr.parseError ("<unknown>")) (by decide) (by simp) rfl]
  · decide

/-- Claim C8 (amended): classification of an unparsable file fails with a
`ParseError` (which does not name the file: its filename attribute is the
parser's `<unknown>` placeholder), and by default this error propagates out
of the resolver and aborts the whole run — `requirements_info` wraps
`find_imports` in no handler (line 108). -/
theorem claim8_parse_error_aborts (env : Env) (pyfile : String)
    (hb : pyfile ≠ ("built-in")) (hpyd : endswithPyd pyfile = false)
    (hread : env.files.lookup pyfile = some FileKind.unparsable) :
    (requirements_info env pyfile).err = some (PyErr.parseError ("<unknown>")) := by
  have hf : find_imports env pyfile none = .error (.parseError ("<unknown>")) := by
    simp [find_imports, hpyd, hread]
  unfold requirements_info
  rw [loop_error env [] [] [] [] ("__main__") none [] pyfile
    (PyErr.parseError ("<unknown>")) hb (by simp) hf]

/-- Claim C8, witness: the amended theorem applied to a concrete environment
holding one unparsable file. -/
theorem claim8_witness :
    (requirements_info badEnv ("main.py")).err
      = some (PyErr.parseError ("<unknown>")) :=
  claim8_parse_error_aborts badEnv ("main.py") (by decide) (by decide) rfl

/-- Claim C10: a module is a key of the returned mapping iff at least one
successful resolution was recorded with it as the dependent (`setdefault`
runs only on success, lines 127-131); in particular an entry file none of
whose direct imports resolve yields the empty mapping, not a `__main__` key
with an empty list. -/
theorem claim10_keys_iff (env : Env) (pyfile : String) (dep : String) :
    ((∃ l, (requirements_info env pyfile).modules.lookup dep = some l) ↔
      (∃ q, (dep, q) ∈ (requirements_info env pyfile).edges)) ∧
    (requirements_info noResolveEnv ("main.py")).modules = [] := by
  constructor
  · unfold requirements_info
    have h := loop_mods_inv env [] [] [] [] [((("__main__"), none), some pyfile)] rfl
    rw [h]
    have hiso : ((buildMods (loop env [] [] [] []
        [((("__main__"), none), some pyfile)]).edges).lookup dep).isSome
        = (loop env [] [] [] []
            [((("__main__"), none), some pyfile)]).edges.any (fun e => dep == e.1) := by
      unfold buildMods
      rw [lookup_foldl_addEdge_isSome]
      simp [List.lookup]
    constructor
    · intro ⟨l, hl⟩
      have hs : ((buildMods (loop env [] [] [] []
          [((("__main__"), none), some pyfile)]).edges).lookup dep).isSome = true := by
        rw [hl]; rfl
      rw [hiso] at hs
      obtain ⟨e, he, hbe⟩ := List.any_eq_true.mp hs
      refine ⟨e.2, ?_⟩
      have hde : dep = e.1 := beq_iff_eq.mp hbe
      have : (dep, e.2) = e := by
        rw [Prod.ext_iff]
        exact ⟨hde, rfl⟩
      rwa [this]
    · intro ⟨q, hq⟩
      have hs : (loop env [] [] [] []
          [((("__main__"), none), some pyfile)]).edges.any (fun e => dep == e.1) = true := by
        apply List.any_eq_true.mpr
        exact ⟨(dep, q), hq, by simp⟩
      rw [← hiso] at hs
      obtain ⟨l, hl⟩ := Option.isSome_iff_exists.mp hs
      exact ⟨l, hl⟩
  · unfold requirements_info
    simp [loop, find_imports, noResolveEnv, endswithPyd, List.isSuffixOf, List.isPrefixOf,
      List.lookup, runFinder, visitList, visit, addImport, initFinder, processImports,
      processImport, computeTarget, startswithDot, containsDot]

/-- Claim C3, witness: the amended theorem at the concrete built-in
environment. -/
theorem claim3_witness :
    ("built-in") ∉ (requirements_info builtinEnv ("main.py")).classified :=
  claim3_builtin_never_classified builtinEnv ("main.py")
